import Mathlib

/-!
Verification development for the Slated task plugin
(repository `tgrosinger/slated-obsidian`, entry file `src/main.ts`).

The core components referenced by the specification (task-line model,
date/repeat engine, task handler, task cache) are not part of the
checked-in source beyond their caller `src/main.ts`; where a definition
embeds one of those missing components it is modelled from the
specification and its doc comment says so.  Definitions embedding code
from `src/main.ts` cite the relevant lines.

Dates are modelled as Gregorian (year, month, day) triples with a
day-number (rata die style) linearisation used for ordering and for
weekday computation.  Lines of text are modelled as lists of characters
and documents as lists of lines.
-/

namespace Slated

/-- Weekday enumeration, Sunday first (index 0) through Saturday (index 6). -/
inductive Weekday where
  | sunday
  | monday
  | tuesday
  | wednesday
  | thursday
  | friday
  | saturday
deriving DecidableEq, Repr

/-- Numeric index of a weekday, Sunday = 0 through Saturday = 6. -/
def Weekday.idx : Weekday → Nat
  | .sunday => 0
  | .monday => 1
  | .tuesday => 2
  | .wednesday => 3
  | .thursday => 4
  | .friday => 5
  | .saturday => 6

/-- Weekday with the given index modulo 7 (0 = Sunday). -/
def weekdayOfIdx (n : Nat) : Weekday :=
  match n % 7 with
  | 0 => .sunday
  | 1 => .monday
  | 2 => .tuesday
  | 3 => .wednesday
  | 4 => .thursday
  | 5 => .friday
  | _ => .saturday

/-- Modelled from the spec: a calendar date as used by the date/repeat
engine (the engine itself is not among the checked-in sources).
Proleptic Gregorian year, month (1-12) and day of month (1-based). -/
structure Date where
  year : Nat
  month : Nat
  day : Nat
deriving DecidableEq, Repr

/-- Gregorian leap-year rule. -/
def isLeap (y : Nat) : Bool :=
  (y % 4 == 0 && y % 100 != 0) || y % 400 == 0

/-- Number of days in a given month of a given year. -/
def daysInMonth (y m : Nat) : Nat :=
  match m with
  | 2 => if isLeap y then 29 else 28
  | 4 => 30
  | 6 => 30
  | 9 => 30
  | 11 => 30
  | _ => 31

/-- Days of year `y` that precede month `m` (so 0 for January). -/
def daysBeforeMonth (y : Nat) : Nat → Nat
  | 0 => 0
  | 1 => 0
  | m + 1 => daysBeforeMonth y m + daysInMonth y m

/-- Total number of days in year `y`. -/
def daysInYear (y : Nat) : Nat := daysBeforeMonth y 13

/-- Days in all years strictly before year `y`. -/
def daysBeforeYear : Nat → Nat
  | 0 => 0
  | y + 1 => daysBeforeYear y + daysInYear y

/-- Linear day number of a date: days elapsed since 0000-01-01. -/
def toDayNumber (d : Date) : Nat :=
  daysBeforeYear d.year + daysBeforeMonth d.year d.month + (d.day - 1)

/-- A date is valid when month and day are in Gregorian range. -/
def validDate (d : Date) : Prop :=
  1 ≤ d.month ∧ d.month ≤ 12 ∧ 1 ≤ d.day ∧ d.day ≤ daysInMonth d.year d.month

instance : DecidablePred validDate := fun d => by
  unfold validDate; infer_instance

/-- Strict chronological order on dates via the day-number linearisation. -/
def dateLt (a b : Date) : Prop := toDayNumber a < toDayNumber b

/-- Chronological order on dates via the day-number linearisation. -/
def dateLe (a b : Date) : Prop := toDayNumber a ≤ toDayNumber b

instance (a b : Date) : Decidable (dateLt a b) := by unfold dateLt; infer_instance

instance (a b : Date) : Decidable (dateLe a b) := by unfold dateLe; infer_instance

/-- Weekday of a date.  The offset 6 aligns the linearisation with the
real-world calendar (0001-01-01 is a Monday in the proleptic Gregorian
calendar). -/
def weekdayOf (d : Date) : Weekday := weekdayOfIdx (toDayNumber d + 6)

/-- Successor date: increments the day, rolling over months and years. -/
def addDays1 (d : Date) : Date :=
  if d.day < daysInMonth d.year d.month then
    ⟨d.year, d.month, d.day + 1⟩
  else if d.month < 12 then
    ⟨d.year, d.month + 1, 1⟩
  else
    ⟨d.year + 1, 1, 1⟩

/-- Advance a date by `k` days. -/
def addDays (d : Date) : Nat → Date
  | 0 => d
  | k + 1 => addDays (addDays1 d) k

/-- Modelled from the spec: a repeat rule (spec section 3, "Repeat Rule";
the date/repeat engine source is not among the checked-in files).
Interval unit day/week/month with an anchor: a specific weekday for
weekly rules, a day of month for monthly rules, an interval for
every-N-days rules. -/
inductive RepeatRule where
  | weekly (day : Weekday)
  | monthly (dayOfMonth : Nat)
  | everyNDays (n : Nat)
deriving DecidableEq, Repr

/-- Year of the month following the month of `d`. -/
def nextMonthYear (d : Date) : Nat := if d.month < 12 then d.year else d.year + 1

/-- Month following the month of `d`, rolling over the year. -/
def nextMonthMonth (d : Date) : Nat := if d.month < 12 then d.month + 1 else 1

/-- Modelled from the spec: `nextOccurrence(rule, from, weekStart)` of the
date/repeat engine (spec section 4.1).  For a weekly rule the result is the
first date strictly after `f` falling on the configured weekday; for a
monthly rule the next date on the anchored day of month, clamped to the
last valid day of a shorter month; for an every-N-days rule the date `n`
days later.  Deterministic and independent of wall-clock time. -/
def nextOccurrence (rule : RepeatRule) (f : Date) (weekStart : Weekday) : Date :=
  match rule with
  | .weekly w =>
      let c := (toDayNumber f + 6) % 7
      let k := (w.idx + 6 - c) % 7 + 1
      addDays f k
  | .monthly anchor =>
      let cand := min anchor (daysInMonth f.year f.month)
      if f.day < cand then ⟨f.year, f.month, cand⟩
      else
        let y := nextMonthYear f
        let m := nextMonthMonth f
        ⟨y, m, min anchor (daysInMonth y m)⟩
  | .everyNDays n => addDays f n

/-- Task status as encoded by the leading markup token of a task line:
open `[ ]`, completed `[x]`, skipped `[-]`, moved away `[>]`. -/
inductive Status where
  | Open
  | Done
  | Skipped
  | Moved
deriving DecidableEq, Repr

/-- Modelled from the spec: the structured task parsed from one line
(spec section 3, "Task"): status, optional scheduled date, optional
repeat rule, and the free-text body following the markup. -/
structure Task where
  status : Status
  date : Option Date
  rule : Option RepeatRule
  body : List Char
deriving DecidableEq, Repr

/-- Modelled from the spec: `isDue(task, referenceDate)` of the
date/repeat engine (spec section 4.1): a task with a scheduled date less
than or equal to the reference date and status open is due; a task
without a scheduled date is not due. -/
def isDue (t : Task) (ref : Date) : Bool :=
  match t.date with
  | none => false
  | some d => decide (t.status = Status.Open) && decide (dateLe d ref)

/-- Character for a single decimal digit value. -/
def digitChar (k : Nat) : Char := Char.ofNat (48 + k)

/-- Decimal value of a digit character. -/
def digitVal (c : Char) : Nat := c.toNat - 48

/-- Two-digit zero-padded decimal rendering. -/
def pad2 (n : Nat) : List Char := [digitChar (n / 10), digitChar (n % 10)]

/-- Four-digit zero-padded decimal rendering. -/
def pad4 (n : Nat) : List Char :=
  [digitChar (n / 1000), digitChar (n / 100 % 10), digitChar (n / 10 % 10), digitChar (n % 10)]

/-- Value of a two-digit sequence. -/
def val2 (a b : Char) : Nat := 10 * digitVal a + digitVal b

/-- Value of a four-digit sequence. -/
def val4 (a b c d : Char) : Nat :=
  1000 * digitVal a + 100 * digitVal b + 10 * digitVal c + digitVal d

/-- Date rendered as `YYYY-MM-DD`. -/
def dateChars (d : Date) : List Char :=
  pad4 d.year ++ ('-' :: pad2 d.month) ++ ('-' :: pad2 d.day)

/-- Lower-case English name of a weekday. -/
def weekdayChars : Weekday → List Char
  | .sunday => ['s', 'u', 'n', 'd', 'a', 'y']
  | .monday => ['m', 'o', 'n', 'd', 'a', 'y']
  | .tuesday => ['t', 'u', 'e', 's', 'd', 'a', 'y']
  | .wednesday => ['w', 'e', 'd', 'n', 'e', 's', 'd', 'a', 'y']
  | .thursday => ['t', 'h', 'u', 'r', 's', 'd', 'a', 'y']
  | .friday => ['f', 'r', 'i', 'd', 'a', 'y']
  | .saturday => ['s', 'a', 't', 'u', 'r', 'd', 'a', 'y']

/-- Modelled from the spec: fixed encoding of a repeat rule token (spec
sections 4.1 and 6; the scenario in section 8 fixes the weekly form
`weekly:monday`, reached after a leading `@`). -/
def ruleChars : RepeatRule → List Char
  | .weekly w => ['w', 'e', 'e', 'k', 'l', 'y', ':'] ++ weekdayChars w
  | .monthly d => ['m', 'o', 'n', 't', 'h', 'l', 'y', ':'] ++ pad2 d
  | .everyNDays n => ['e', 'v', 'e', 'r', 'y', ':'] ++ pad2 n

/-- Leading status token character: open, done, skipped, moved. -/
def statusChar : Status → Char
  | .Open => ' '
  | .Done => 'x'
  | .Skipped => '-'
  | .Moved => '>'

/-- Status denoted by a status token character, if any. -/
def statusOfChar : Char → Option Status
  | ' ' => some .Open
  | 'x' => some .Done
  | '-' => some .Skipped
  | '>' => some .Moved
  | _ => none

/-- Serialized optional date token (with its separating space). -/
def datePart : Option Date → List Char
  | none => []
  | some d => ' ' :: dateChars d

/-- Serialized optional repeat-rule token (with its separating space). -/
def rulePart : Option RepeatRule → List Char
  | none => []
  | some r => ' ' :: '@' :: ruleChars r

/-- Modelled from the spec: `serialize(task)` of the task line model
(spec section 4.2), rendering a task back to its line of text: status
token, optional date token, optional repeat-rule token, body. -/
def serialize (t : Task) : List Char :=
  '[' :: statusChar t.status :: ']' ::
    (datePart t.date ++ (rulePart t.rule ++ (' ' :: t.body)))

/-- Parse the leading status token of a task line. -/
def parseStatus (l : List Char) : Option (Status × List Char) :=
  match l with
  | '[' :: c :: ']' :: rest => (statusOfChar c).map (fun s => (s, rest))
  | _ => none

/-- True when the list is empty or starts with a space. -/
def spaceOrEnd : List Char → Bool
  | [] => true
  | ' ' :: _ => true
  | _ => false

/-- Try to consume a space-separated `YYYY-MM-DD` date token; on failure
return the input unchanged. -/
def tryDate (l : List Char) : Option Date × List Char :=
  match l with
  | sp :: a :: b :: c :: d :: d1 :: e :: f :: d2 :: g :: h :: rest =>
      if sp = ' ' ∧ d1 = '-' ∧ d2 = '-' ∧ a.isDigit ∧ b.isDigit ∧ c.isDigit ∧ d.isDigit
          ∧ e.isDigit ∧ f.isDigit ∧ g.isDigit ∧ h.isDigit ∧ spaceOrEnd rest then
        (some ⟨val4 a b c d, val2 e f, val2 g h⟩, rest)
      else (none, l)
  | _ => (none, l)

/-- Parse a weekday name at the front of the input. -/
def weekdayTok (l : List Char) : Option (Weekday × List Char) :=
  match l with
  | 's' :: 'u' :: 'n' :: 'd' :: 'a' :: 'y' :: rest => some (.sunday, rest)
  | 'm' :: 'o' :: 'n' :: 'd' :: 'a' :: 'y' :: rest => some (.monday, rest)
  | 't' :: 'u' :: 'e' :: 's' :: 'd' :: 'a' :: 'y' :: rest => some (.tuesday, rest)
  | 'w' :: 'e' :: 'd' :: 'n' :: 'e' :: 's' :: 'd' :: 'a' :: 'y' :: rest =>
      some (.wednesday, rest)
  | 't' :: 'h' :: 'u' :: 'r' :: 's' :: 'd' :: 'a' :: 'y' :: rest => some (.thursday, rest)
  | 'f' :: 'r' :: 'i' :: 'd' :: 'a' :: 'y' :: rest => some (.friday, rest)
  | 's' :: 'a' :: 't' :: 'u' :: 'r' :: 'd' :: 'a' :: 'y' :: rest => some (.saturday, rest)
  | _ => none

/-- Parse a two-digit number at the front of the input. -/
def parse2 (l : List Char) : Option (Nat × List Char) :=
  match l with
  | a :: b :: rest =>
      if a.isDigit ∧ b.isDigit then some (val2 a b, rest) else none
  | _ => none

/-- Parse a repeat-rule token body (after the leading `@`). -/
def ruleTok (l : List Char) : Option (RepeatRule × List Char) :=
  match l with
  | 'w' :: 'e' :: 'e' :: 'k' :: 'l' :: 'y' :: ':' :: r =>
      (weekdayTok r).map (fun p => (.weekly p.1, p.2))
  | 'm' :: 'o' :: 'n' :: 't' :: 'h' :: 'l' :: 'y' :: ':' :: r =>
      (parse2 r).map (fun p => (.monthly p.1, p.2))
  | 'e' :: 'v' :: 'e' :: 'r' :: 'y' :: ':' :: r =>
      (parse2 r).map (fun p => (.everyNDays p.1, p.2))
  | _ => none

/-- Try to consume a space-separated `@rule` token; on failure return the
input unchanged. -/
def tryRule (l : List Char) : Option RepeatRule × List Char :=
  match l with
  | ' ' :: '@' :: r =>
      match ruleTok r with
      | some p => (some p.1, p.2)
      | none => (none, l)
  | _ => (none, l)

/-- Modelled from the spec: `parseLine(text)` of the task line model
(spec section 4.2), returning `none` (not an error) when the line does
not match the task markup: leading status token, then optional date and
repeat-rule tokens in a fixed encoding, then the free-text body. -/
def parseLine (l : List Char) : Option Task :=
  match parseStatus l with
  | none => none
  | some (s, r1) =>
      let p1 := tryDate r1
      let p2 := tryRule p1.2
      match p2.2 with
      | ' ' :: body => some ⟨s, p1.1, p2.1, body⟩
      | _ => none

/-- True when a body would be mistaken for a leading date token. -/
def dateShaped (body : List Char) : Bool := (tryDate (' ' :: body)).1.isSome

/-- True when a body would be mistaken for a leading repeat-rule token. -/
def ruleShaped (body : List Char) : Bool := (tryRule (' ' :: body)).1.isSome

/-- In-range anchors for a repeat rule. -/
def validRuleFields : RepeatRule → Prop
  | .weekly _ => True
  | .monthly d => 1 ≤ d ∧ d ≤ 31
  | .everyNDays n => 1 ≤ n ∧ n ≤ 99

instance : DecidablePred validRuleFields := fun r => by
  unfold validRuleFields; cases r <;> infer_instance

/-- A valid task: in-range date and rule fields, and a body that cannot
be mistaken for an absent date or rule token. -/
def validTask (t : Task) : Prop :=
  (∀ d, t.date = some d →
    d.year < 10000 ∧ 1 ≤ d.month ∧ d.month ≤ 12 ∧ 1 ≤ d.day ∧ d.day ≤ 31) ∧
  (∀ r, t.rule = some r → validRuleFields r) ∧
  (t.date = none → t.rule = none → dateShaped t.body = false) ∧
  (t.rule = none → ruleShaped t.body = false)

instance : DecidablePred validTask := fun t => by
  unfold validTask; infer_instance

/-- Modelled from the spec: `isLineTask(text)` of the task handler (spec
section 4.4), the classification helper exposed to UI callers: true
exactly when the line parses as a task. -/
def isLineTask (l : List Char) : Bool := (parseLine l).isSome

/-- A line of text in a document. -/
abbrev Line := List Char

/-- Configuration snapshot consumed by the core (spec section 6): the
fields of the host settings used by the move engine. -/
structure Config where
  tasksHeader : Line
  blankLineAfterHeader : Bool
  preserveMovedTasks : Bool

/-- Result of searching a document for the tasks section header. -/
inductive SectionLookup where
  | found (i : Nat)
  | notFound
  | malformed
deriving DecidableEq, Repr

/-- Modelled from the spec: `locateTasksSection` of the document
structure navigator (spec section 4.3): finds the configured header,
signals `notFound` when absent and `malformed` on duplicate headers. -/

def locateTasksSection (lines : List Line) (header : Line) : SectionLookup :=
  match lines.findIdx? (fun l => decide (l = header)) with
  | none => .notFound
  | some i =>
      if 2 ≤ lines.countP (fun l => decide (l = header)) then .malformed else .found i

/-- Modelled from the spec: `insertTask` of the document structure
navigator (spec section 4.3): inserts the serialized task text after the
tasks header (honoring the blank-line-after-heading configuration),
creating the section header first when it is absent, and failing on a
malformed document. -/
def insertTaskLine (cfg : Config) (lines : List Line) (taskLine : Line) :
    Option (List Line) :=
  match locateTasksSection lines cfg.tasksHeader with
  | .malformed => none
  | .found i =>
      some (lines.insertIdx
        (min (i + 1 + (if cfg.blankLineAfterHeader then 1 else 0)) lines.length) taskLine)
  | .notFound =>
      some (lines ++
        ((cfg.tasksHeader :: (if cfg.blankLineAfterHeader then [[]] else [])) ++ [taskLine]))

/-- Modelled from the spec: `markMoved(task)` of the task line model
(spec section 4.2): sets the moved-away status. -/
def markMoved (t : Task) : Task := { t with status := Status.Moved }

/-- Rescheduling a task to a given date (the date-rewrite performed on
the copy inserted into the destination, spec section 8 scenarios). -/
def setDate (t : Task) (d : Date) : Task := { t with date := some d }

/-- Modelled from the spec: the move transition of the task handler
(spec section 4.4, "Open, due, no repeat rule"): parse the task at line
`i` of the source, check it is due, open and non-repeating, insert the
rescheduled copy into the destination through the navigator, and remove
the source line - or, when `preserveMovedTasks` is configured, rewrite
it with the moved marker instead. -/
def moveTask (cfg : Config) (refDate target : Date) (src : List Line) (i : Nat)
    (dst : List Line) : Option (List Line × List Line) :=
  match src[i]? with
  | none => none
  | some line =>
    match parseLine line with
    | none => none
    | some t =>
      if t.rule = none ∧ isDue t refDate = true then
        match insertTaskLine cfg dst (serialize (setDate t target)) with
        | none => none
        | some dstNew =>
            some ((if cfg.preserveMovedTasks then src.set i (serialize (markMoved t))
                   else src.eraseIdx i), dstNew)
      else none

/-- A host file handle as seen by the plugin: only the basename is
inspected by the embedded code (`src/main.ts` line 59).  A JS falsy
basename (the empty string) is modelled as the empty character list; a
null/undefined file argument is modelled as `Option.none` at use sites. -/
structure TFile where
  basename : List Char
deriving DecidableEq, Repr

/-- A call into the task handler or task cache made by the plugin glue:
`processFile` scans and mutates one document, `fileOpenHook` refreshes
its task-cache entry. -/
inductive Event where
  | processFile (f : TFile)
  | fileOpenHook (f : TFile)
deriving DecidableEq, Repr

/-- The plugin-instance state touched by the file-open handler:
`lastFile` (`src/main.ts` line 42). -/
structure PluginState where
  lastFile : Option TFile
deriving DecidableEq, Repr

/-- The `file-open` workspace event handler of `SlatedPlugin.onload`
(`src/main.ts` lines 57-76): a falsy file or basename returns at once;
otherwise the previously focused file (when one exists) is processed and
its cache entry refreshed, then the new file is recorded as last focused
and processed likewise.  The calls are returned, in invocation order, as
an event list. -/
def fileOpenHandler (st : PluginState) (file : Option TFile) :
    PluginState × List Event :=
  match file with
  | none => (st, [])
  | some f =>
      if f.basename = [] then (st, [])
      else
        (⟨some f⟩,
          (match st.lastFile with
           | none => []
           | some lf => [.processFile lf, .fileOpenHook lf]) ++
            [.processFile f, .fileOpenHook f])

/-- The state of the active workspace leaf's view as inspected by the
embedded command callbacks: a Markdown view carrying the text of the
line under the editor cursor, or some other view type. -/
inductive ViewState where
  | markdownView (cursorLine : List Char)
  | otherView
deriving DecidableEq, Repr

/-- `SlatedPlugin.taskChecker` (`src/main.ts` lines 174-190): false when
there is no active leaf or its view is not a Markdown view, otherwise
`isLineTask` applied to the text of the line under the editor cursor. -/
def taskChecker (activeLeaf : Option ViewState) : Bool :=
  match activeLeaf with
  | none => false
  | some .otherView => false
  | some (.markdownView line) => isLineTask line

/-- The checking branch of the `move-incompleted-today` command callback
(`src/main.ts` lines 121-131): disabled (undefined, falsy) when the
active view is not a Markdown view; otherwise enabled unless the moment
resolved for the file's daily note is the same day as today.
`noteDate` models `findMomentForDailyNote` (none when the file is not a
daily note), and same-day comparison is day-number equality. -/
def moveIncompletedCheck (view : ViewState) (noteDate : Option Date)
    (today : Date) : Bool :=
  match view with
  | .otherView => false
  | .markdownView _ =>
      match noteDate with
      | none => true
      | some m => ! decide (toDayNumber m = toDayNumber today)

lemma daysInMonth_pos (y m : Nat) : 1 ≤ daysInMonth y m := by
  unfold daysInMonth
  split <;> first
    | omega
    | (split <;> omega)

lemma daysBeforeMonth_succ (y m : Nat) (h : 1 ≤ m) :
    daysBeforeMonth y (m + 1) = daysBeforeMonth y m + daysInMonth y m := by
  cases m with
  | zero => omega
  | succ k => rfl

lemma daysBeforeMonth_thirteen (y : Nat) :
    daysBeforeMonth y 13 = daysBeforeMonth y 12 + 31 := by
  rfl

lemma validDate_addDays1 (d : Date) (h : validDate d) : validDate (addDays1 d) := by
  obtain ⟨h1, h2, h3, h4⟩ := h
  unfold addDays1
  by_cases hlt : d.day < daysInMonth d.year d.month
  · simp only [hlt, if_true]
    refine ⟨?_, ?_, ?_, ?_⟩ <;> dsimp only <;> omega
  · simp only [hlt, if_false]
    by_cases hm : d.month < 12
    · simp only [hm, if_true]
      refine ⟨?_, ?_, ?_, ?_⟩ <;> dsimp only <;>
        first | omega | exact daysInMonth_pos _ _
    · simp only [hm, if_false]
      refine ⟨?_, ?_, ?_, ?_⟩ <;> dsimp only <;>
        first | omega | exact daysInMonth_pos _ _

lemma toDayNumber_addDays1 (d : Date) (h : validDate d) :
    toDayNumber (addDays1 d) = toDayNumber d + 1 := by
  obtain ⟨h1, h2, h3, h4⟩ := h
  unfold addDays1 toDayNumber
  by_cases hlt : d.day < daysInMonth d.year d.month
  · simp only [hlt, if_true]
    simp
    omega
  · simp only [hlt, if_false]
    have hday : d.day = daysInMonth d.year d.month := by omega
    by_cases hm : d.month < 12
    · simp only [hm, if_true]
      simp only [daysBeforeMonth_succ d.year d.month h1]
      simp
      omega
    · simp only [hm, if_false]
      have hm12 : d.month = 12 := by omega
      have h31 : daysInMonth d.year 12 = 31 := rfl
      simp only [daysBeforeYear, daysInYear, daysBeforeMonth_thirteen, hm12] at *
      simp only [daysBeforeMonth]
      omega

lemma addDays_spec (d : Date) (k : Nat) (h : validDate d) :
    validDate (addDays d k) ∧ toDayNumber (addDays d k) = toDayNumber d + k := by
  induction k generalizing d with
  | zero => exact ⟨h, rfl⟩
  | succ n ih =>
    have h1 := validDate_addDays1 d h
    have h2 := toDayNumber_addDays1 d h
    obtain ⟨ha, hb⟩ := ih (addDays1 d) h1
    exact ⟨ha, by simp [addDays] at *; omega⟩

lemma weekdayOfIdx_eq (m : Nat) (w : Weekday) (h : m % 7 = w.idx) :
    weekdayOfIdx m = w := by
  unfold weekdayOfIdx
  rw [h]
  cases w <;> rfl

lemma weekday_idx_lt (w : Weekday) : w.idx < 7 := by
  cases w <;> simp [Weekday.idx]

lemma isDue_iff (u : Task) (R : Date) :
    isDue u R = true ↔
      u.status = Status.Open ∧ ∃ d, u.date = some d ∧ dateLe d R := by
  unfold isDue
  cases hd : u.date with
  | none => simp [hd]
  | some d => simp [hd]

lemma isDigit_digitChar (k : Nat) (h : k < 10) : (digitChar k).isDigit = true := by
  interval_cases k <;> decide

lemma digitVal_digitChar (k : Nat) (h : k < 10) : digitVal (digitChar k) = k := by
  interval_cases k <;> decide

lemma val2_pad2 (n : Nat) (h : n < 100) :
    val2 (digitChar (n / 10)) (digitChar (n % 10)) = n := by
  unfold val2
  rw [digitVal_digitChar _ (by omega), digitVal_digitChar _ (by omega)]
  omega

lemma val4_pad4 (n : Nat) (h : n < 10000) :
    val4 (digitChar (n / 1000)) (digitChar (n / 100 % 10)) (digitChar (n / 10 % 10))
      (digitChar (n % 10)) = n := by
  unfold val4
  rw [digitVal_digitChar _ (by omega), digitVal_digitChar _ (by omega),
    digitVal_digitChar _ (by omega), digitVal_digitChar _ (by omega)]
  omega

lemma statusOfChar_statusChar (s : Status) : statusOfChar (statusChar s) = some s := by
  cases s <;> rfl

lemma parseStatus_cons (c : Char) (rest : List Char) :
    parseStatus ('[' :: c :: ']' :: rest) = (statusOfChar c).map (fun s => (s, rest)) := rfl

lemma tryDate_cons (sp a b c d d1 e f d2 g h : Char) (rest : List Char) :
    tryDate (sp :: a :: b :: c :: d :: d1 :: e :: f :: d2 :: g :: h :: rest) =
      if sp = ' ' ∧ d1 = '-' ∧ d2 = '-' ∧ a.isDigit ∧ b.isDigit ∧ c.isDigit ∧ d.isDigit
          ∧ e.isDigit ∧ f.isDigit ∧ g.isDigit ∧ h.isDigit ∧ spaceOrEnd rest then
        (some ⟨val4 a b c d, val2 e f, val2 g h⟩, rest)
      else (none, sp :: a :: b :: c :: d :: d1 :: e :: f :: d2 :: g :: h :: rest) := rfl

lemma tryDate_dateChars (d : Date) (rest : List Char)
    (hy : d.year < 10000) (hm : d.month < 100) (hd : d.day < 100)
    (hrest : spaceOrEnd rest = true) :
    tryDate (' ' :: (dateChars d ++ rest)) = (some d, rest) := by
  obtain ⟨y, m, dd⟩ := d
  dsimp only at hy hm hd
  simp only [dateChars, pad4, pad2, List.cons_append, List.nil_append, List.append_assoc]
  rw [tryDate_cons]
  rw [if_pos]
  · rw [val4_pad4 y hy, val2_pad2 m hm, val2_pad2 dd hd]
  · refine ⟨rfl, rfl, rfl, ?_, ?_, ?_, ?_, ?_, ?_, ?_, ?_, hrest⟩ <;>
      exact isDigit_digitChar _ (by omega)

lemma tryDate_not_digit (x : Char) (hx : x.isDigit = false) (l : List Char) :
    tryDate (' ' :: x :: l) = (none, ' ' :: x :: l) := by
  rcases l with _ | ⟨c1, _ | ⟨c2, _ | ⟨c3, _ | ⟨c4, _ | ⟨c5, _ | ⟨c6, _ | ⟨c7,
    _ | ⟨c8, _ | ⟨c9, rest⟩⟩⟩⟩⟩⟩⟩⟩⟩ <;>
    first
      | rfl
      | (rw [tryDate_cons, if_neg]
         intro hc
         rw [hx] at hc
         simp at hc)

lemma tryDate_none (l : List Char) (h : (tryDate l).1 = none) : tryDate l = (none, l) := by
  unfold tryDate at h ⊢
  split at h
  next =>
    split at h
    next => simp at h
    next hc => rw [if_neg hc]
  next => rfl

lemma weekdayTok_weekdayChars (w : Weekday) (rest : List Char) :
    weekdayTok (weekdayChars w ++ rest) = some (w, rest) := by
  cases w <;> rfl

lemma parse2_cons (a b : Char) (rest : List Char) :
    parse2 (a :: b :: rest) =
      if a.isDigit ∧ b.isDigit then some (val2 a b, rest) else none := rfl

lemma parse2_pad2 (n : Nat) (h : n < 100) (rest : List Char) :
    parse2 (pad2 n ++ rest) = some (n, rest) := by
  simp only [pad2, List.cons_append, List.nil_append]
  rw [parse2_cons, if_pos]
  · rw [val2_pad2 n h]
  · exact ⟨isDigit_digitChar _ (by omega), isDigit_digitChar _ (by omega)⟩

lemma ruleTok_ruleChars (r : RepeatRule) (rest : List Char) (hv : validRuleFields r) :
    ruleTok (ruleChars r ++ rest) = some (r, rest) := by
  cases r with
  | weekly w =>
    simp only [ruleChars, List.cons_append, List.nil_append, List.append_assoc]
    show (weekdayTok (weekdayChars w ++ rest)).map _ = _
    rw [weekdayTok_weekdayChars]
    rfl
  | monthly d =>
    obtain ⟨h1, h2⟩ := hv
    simp only [ruleChars, List.cons_append, List.nil_append, List.append_assoc]
    show (parse2 (pad2 d ++ rest)).map _ = _
    rw [parse2_pad2 d (by omega)]
    rfl
  | everyNDays n =>
    obtain ⟨h1, h2⟩ := hv
    simp only [ruleChars, List.cons_append, List.nil_append, List.append_assoc]
    show (parse2 (pad2 n ++ rest)).map _ = _
    rw [parse2_pad2 n (by omega)]
    rfl

lemma tryRule_cons (r : List Char) :
    tryRule (' ' :: '@' :: r) =
      (match ruleTok r with
       | some p => (some p.1, p.2)
       | none => (none, ' ' :: '@' :: r)) := rfl

lemma tryRule_ruleChars (r : RepeatRule) (rest : List Char) (hv : validRuleFields r) :
    tryRule (' ' :: '@' :: (ruleChars r ++ rest)) = (some r, rest) := by
  rw [tryRule_cons, ruleTok_ruleChars r rest hv]

lemma tryRule_none (l : List Char) (h : (tryRule l).1 = none) : tryRule l = (none, l) := by
  unfold tryRule at h ⊢
  split at h
  next =>
    split at h
    next => simp at h
    next => rfl
  next => rfl

lemma isSome_false_eq_none {α : Type} {o : Option α} (h : o.isSome = false) : o = none := by
  cases o with
  | none => rfl
  | some a => simp at h

lemma parseLine_eq (l : List Char) (s : Status) (r1 : List Char)
    (h : parseStatus l = some (s, r1)) :
    parseLine l =
      (match (tryRule (tryDate r1).2).2 with
       | ' ' :: body => some ⟨s, (tryDate r1).1, (tryRule (tryDate r1).2).1, body⟩
       | _ => none) := by
  unfold parseLine
  rw [h]

/-- Strictly later: any date in the month following `f`'s month comes
after `f`. -/
lemma dateLt_nextMonth (f : Date) (d' : Nat) (hf : validDate f) :
    dateLt f ⟨nextMonthYear f, nextMonthMonth f, d'⟩ := by
  obtain ⟨hm1, hm2, hd1, hd2⟩ := hf
  unfold dateLt toDayNumber nextMonthYear nextMonthMonth
  dsimp only
  by_cases hm : f.month < 12
  · rw [if_pos hm, if_pos hm, daysBeforeMonth_succ f.year f.month hm1]
    omega
  · have hm12 : f.month = 12 := by omega
    have h31 : daysInMonth f.year 12 = 31 := rfl
    rw [if_neg hm, if_neg hm]
    have hdby : daysBeforeYear (f.year + 1)
        = daysBeforeYear f.year + daysBeforeMonth f.year 12 + 31 := by
      show daysBeforeYear f.year + daysInYear f.year = _
      unfold daysInYear
      rw [daysBeforeMonth_thirteen]
      omega
    have hdbm1 : daysBeforeMonth (f.year + 1) 1 = 0 := rfl
    rw [hm12] at hd2
    rw [h31] at hd2
    rw [hdby, hdbm1, hm12]
    omega

lemma nextMonthMonth_range (f : Date) (hm2 : f.month ≤ 12) :
    1 ≤ nextMonthMonth f ∧ nextMonthMonth f ≤ 12 := by
  unfold nextMonthMonth
  split <;> omega

lemma insertIdx_perm {α : Type} (j : Nat) (x : α) (l : List α) (h : j ≤ l.length) :
    List.Perm (l.insertIdx j x) (x :: l) := by
  induction l generalizing j with
  | nil =>
    have hj : j = 0 := by simpa using h
    subst hj
    simp [List.insertIdx_zero]
  | cons a l ih =>
    cases j with
    | zero =>
      rw [List.insertIdx_zero]
    | succ n =>
      rw [List.insertIdx_succ_cons]
      have hp := ih n (by simpa using h)
      exact (hp.cons a).trans (List.Perm.swap x a l)

lemma insertTaskLine_perm (cfg : Config) (lines : List Line) (x : Line)
    (out : List Line) (h : insertTaskLine cfg lines x = some out) :
    ∃ extra, (extra = [] ∨ extra = [cfg.tasksHeader] ∨ extra = [cfg.tasksHeader, []]) ∧
      List.Perm out (x :: (extra ++ lines)) := by
  unfold insertTaskLine at h
  split at h
  · simp at h
  next i heq =>
    refine ⟨[], Or.inl rfl, ?_⟩
    rw [← Option.some.inj h]
    simp only [List.nil_append]
    exact insertIdx_perm _ x lines (Nat.min_le_right _ _)
  next =>
    refine ⟨cfg.tasksHeader :: (if cfg.blankLineAfterHeader then [[]] else []), ?_, ?_⟩
    · by_cases hb : cfg.blankLineAfterHeader
      · rw [if_pos hb]
        exact Or.inr (Or.inr rfl)
      · rw [if_neg hb]
        exact Or.inr (Or.inl rfl)
    · rw [← Option.some.inj h]
      have p1 : List.Perm
          (lines ++ ((cfg.tasksHeader :: (if cfg.blankLineAfterHeader then [[]] else [])) ++ [x]))
          (((cfg.tasksHeader :: (if cfg.blankLineAfterHeader then [[]] else [])) ++ [x]) ++ lines) :=
        List.perm_append_comm
      have e2 : ((cfg.tasksHeader :: (if cfg.blankLineAfterHeader then [[]] else [])) ++ [x]) ++ lines
          = (cfg.tasksHeader :: (if cfg.blankLineAfterHeader then [[]] else [])) ++ (x :: lines) := by
        simp
      have p3 : List.Perm
          ((cfg.tasksHeader :: (if cfg.blankLineAfterHeader then [[]] else [])) ++ (x :: lines))
          (x :: ((cfg.tasksHeader :: (if cfg.blankLineAfterHeader then [[]] else [])) ++ lines)) :=
        List.perm_middle
      exact p1.trans (e2 ▸ p3)

/-- C1: a successful move of a due, open, non-repeating task removes
exactly the task's line from the source (or, when `preserveMovedTasks`
is configured, rewrites exactly that line with the moved marker) and the
destination afterwards holds exactly one new task line (plus, at most,
a freshly created section header and blank line), with every other line
preserved - no duplication, no loss. -/
theorem moveTask_moves_exactly_one (cfg : Config) (refDate target : Date)
    (src : List Line) (i : Nat) (dst src' dst' : List Line)
    (h : moveTask cfg refDate target src i dst = some (src', dst')) :
    ∃ line t, src[i]? = some line ∧ parseLine line = some t ∧
      t.rule = none ∧ isDue t refDate = true ∧
      (∃ extra, (extra = [] ∨ extra = [cfg.tasksHeader] ∨ extra = [cfg.tasksHeader, []]) ∧
        List.Perm dst' (serialize (setDate t target) :: (extra ++ dst))) ∧
      (cfg.preserveMovedTasks = false → src' = src.take i ++ src.drop (i + 1)) ∧
      (cfg.preserveMovedTasks = true →
        src' = src.set i (serialize (markMoved t)) ∧
        src'.length = src.length ∧
        src'[i]? = some (serialize (markMoved t)) ∧
        ∃ rest, serialize (markMoved t) = '[' :: '>' :: ']' :: rest) := by
  unfold moveTask at h
  split at h
  · exact absurd h (by simp)
  next line hline =>
  split at h
  · exact absurd h (by simp)
  next t ht =>
  split at h
  · next hcond =>
    split at h
    · exact absurd h (by simp)
    next dstNew hins =>
      injection h with hpair
      injection hpair with hsrc hdst
      refine ⟨line, t, hline, ht, hcond.1, hcond.2, ?_, ?_, ?_⟩
      · obtain ⟨extra, hex, hperm⟩ := insertTaskLine_perm cfg dst _ dstNew hins
        exact ⟨extra, hex, hdst ▸ hperm⟩
      · intro hpres
        rw [← hsrc, if_neg (by rw [hpres]; exact Bool.false_ne_true)]
        exact List.eraseIdx_eq_take_drop_succ src i
      · intro hpres
        have hi : i < src.length := by
          rcases List.getElem?_eq_some.mp hline with ⟨hi, -⟩
          exact hi
        rw [← hsrc, if_pos hpres]
        refine ⟨rfl, List.length_set src i _, ?_, ?_⟩
        · exact List.getElem?_set_eq_of_lt _ hi
        · exact ⟨datePart (markMoved t).date ++
            (rulePart (markMoved t).rule ++ (' ' :: (markMoved t).body)), rfl⟩
  · exact absurd h (by simp)

/-- Witness for C1: moving the due task `[ ] 0004-01-01 Buy milk` out of
a one-line document into an empty destination. -/
theorem moveTask_moves_exactly_one_witness :
    moveTask ⟨"## Tasks".toList, false, false⟩ ⟨4, 1, 2⟩ ⟨4, 1, 2⟩
        ["[ ] 0004-01-01 Buy milk".toList] 0 []
      = some ([], ["## Tasks".toList, "[ ] 0004-01-02 Buy milk".toList]) ∧
    (∃ line t, (["[ ] 0004-01-01 Buy milk".toList] : List Line)[(0 : Nat)]? = some line ∧
      parseLine line = some t ∧
      t.rule = none ∧ isDue t ⟨4, 1, 2⟩ = true ∧
      (∃ extra, (extra = [] ∨ extra = [(⟨"## Tasks".toList, false, false⟩ : Config).tasksHeader] ∨
          extra = [(⟨"## Tasks".toList, false, false⟩ : Config).tasksHeader, []]) ∧
        List.Perm ["## Tasks".toList, "[ ] 0004-01-02 Buy milk".toList]
          (serialize (setDate t ⟨4, 1, 2⟩) :: (extra ++ []))) ∧
      ((false : Bool) = false →
        ([] : List Line) = (["[ ] 0004-01-01 Buy milk".toList] : List Line).take 0 ++
          (["[ ] 0004-01-01 Buy milk".toList] : List Line).drop 1) ∧
      ((false : Bool) = true →
        ([] : List Line) = (["[ ] 0004-01-01 Buy milk".toList] : List Line).set 0
            (serialize (markMoved t)) ∧
        ([] : List Line).length = (["[ ] 0004-01-01 Buy milk".toList] : List Line).length ∧
        ([] : List Line)[(0 : Nat)]? = some (serialize (markMoved t)) ∧
        ∃ rest, serialize (markMoved t) = '[' :: '>' :: ']' :: rest)) :=
  ⟨by decide, moveTask_moves_exactly_one ⟨"## Tasks".toList, false, false⟩ ⟨4, 1, 2⟩ ⟨4, 1, 2⟩
    ["[ ] 0004-01-01 Buy milk".toList] 0 [] []
    ["## Tasks".toList, "[ ] 0004-01-02 Buy milk".toList] (by decide)⟩

/-- C2: for every valid task value `t`, `parseLine (serialize t)` yields a
task equal to `t` (serialize/parseLine round-trip). -/
theorem parseLine_serialize_roundtrip (t : Task) (hv : validTask t) :
    parseLine (serialize t) = some t := by
  obtain ⟨s, dOpt, rOpt, body⟩ := t
  obtain ⟨hdate, hrule, hdr, hruleS⟩ := hv
  have hst : parseStatus (serialize ⟨s, dOpt, rOpt, body⟩)
      = some (s, (datePart dOpt ++ (rulePart rOpt ++ (' ' :: body)))) := by
    unfold serialize
    rw [parseStatus_cons, statusOfChar_statusChar]
    rfl
  rw [parseLine_eq _ _ _ hst]
  cases dOpt with
  | some d =>
    obtain ⟨hy, hm1, hm2, hd1, hd2⟩ := hdate d rfl
    cases rOpt with
    | some r =>
      have hrv := hrule r rfl
      have e1 : (datePart (some d) ++ (rulePart (some r) ++ (' ' :: body)))
          = ' ' :: (dateChars d ++ (' ' :: '@' :: (ruleChars r ++ (' ' :: body)))) := by
        simp [datePart, rulePart]
      rw [e1, tryDate_dateChars d (' ' :: '@' :: (ruleChars r ++ (' ' :: body)))
        hy (by omega) (by omega) rfl]
      dsimp only
      rw [tryRule_ruleChars r _ hrv]
      rfl
    | none =>
      have e1 : (datePart (some d) ++ (rulePart none ++ (' ' :: body)))
          = ' ' :: (dateChars d ++ (' ' :: body)) := by
        simp [datePart, rulePart]
      rw [e1, tryDate_dateChars d (' ' :: body) hy (by omega) (by omega) rfl]
      dsimp only
      have h2 : tryRule (' ' :: body) = (none, ' ' :: body) := by
        apply tryRule_none
        exact isSome_false_eq_none (hruleS rfl)
      rw [h2]
      rfl
  | none =>
    cases rOpt with
    | some r =>
      have e1 : (datePart none ++ (rulePart (some r) ++ (' ' :: body)))
          = ' ' :: '@' :: (ruleChars r ++ (' ' :: body)) := by
        simp [datePart, rulePart]
      rw [e1, tryDate_not_digit '@' (by decide)]
      dsimp only
      rw [tryRule_ruleChars r _ (hrule r rfl)]
      rfl
    | none =>
      have e1 : (datePart none ++ (rulePart none ++ (' ' :: body)))
          = ' ' :: body := by
        simp [datePart, rulePart]
      rw [e1]
      have h1 : tryDate (' ' :: body) = (none, ' ' :: body) := by
        apply tryDate_none
        exact isSome_false_eq_none (hdr rfl rfl)
      rw [h1]
      dsimp only
      have h2 : tryRule (' ' :: body) = (none, ' ' :: body) := by
        apply tryRule_none
        exact isSome_false_eq_none (hruleS rfl)
      rw [h2]
      rfl

/-- Witness for C2 at a concrete task: the scenario line
`[ ] 2024-01-01 @weekly:monday Take out trash` of the spec. -/
theorem parseLine_serialize_roundtrip_witness :
    validTask ⟨Status.Open, some ⟨2024, 1, 1⟩, some (.weekly .monday),
        "Take out trash".toList⟩ ∧
      parseLine (serialize ⟨Status.Open, some ⟨2024, 1, 1⟩, some (.weekly .monday),
        "Take out trash".toList⟩) =
        some ⟨Status.Open, some ⟨2024, 1, 1⟩, some (.weekly .monday),
        "Take out trash".toList⟩ :=
  ⟨by decide, parseLine_serialize_roundtrip _ (by decide)⟩

/-- C3: for every weekly rule, every `from` date and every week-start
setting, the next occurrence is strictly later than `from`, falls on the
configured weekday, and is a valid date. -/
theorem nextOccurrence_weekly_spec (w ws : Weekday) (f : Date) (h : validDate f) :
    dateLt f (nextOccurrence (RepeatRule.weekly w) f ws) ∧
    weekdayOf (nextOccurrence (RepeatRule.weekly w) f ws) = w ∧
    validDate (nextOccurrence (RepeatRule.weekly w) f ws) := by
  have hidx : Weekday.idx w < 7 := weekday_idx_lt w
  have heq : nextOccurrence (RepeatRule.weekly w) f ws
      = addDays f ((w.idx + 6 - (toDayNumber f + 6) % 7) % 7 + 1) := rfl
  rw [heq]
  obtain ⟨hv, hd⟩ := addDays_spec f ((w.idx + 6 - (toDayNumber f + 6) % 7) % 7 + 1) h
  refine ⟨?_, ?_, hv⟩
  · unfold dateLt
    rw [hd]
    omega
  · unfold weekdayOf
    apply weekdayOfIdx_eq
    rw [hd]
    omega

/-- Witness for C3 at a year boundary: next Monday after Sunday
2023-12-31. -/
theorem nextOccurrence_weekly_spec_witness :
    validDate ⟨2023, 12, 31⟩ ∧
      (dateLt ⟨2023, 12, 31⟩
          (nextOccurrence (RepeatRule.weekly .monday) ⟨2023, 12, 31⟩ .sunday) ∧
        weekdayOf (nextOccurrence (RepeatRule.weekly .monday) ⟨2023, 12, 31⟩ .sunday)
          = .monday ∧
        validDate (nextOccurrence (RepeatRule.weekly .monday) ⟨2023, 12, 31⟩ .sunday)) :=
  ⟨by decide, nextOccurrence_weekly_spec .monday .sunday ⟨2023, 12, 31⟩ (by decide)⟩

/-- C4: a monthly rule clamps to the last valid day of the target month:
the result is a valid date in the same or immediately following month,
its day is the anchor clamped to that month's length, and in particular
when the anchor exceeds the month's length the result is the month's
last day. -/
theorem nextOccurrence_monthly_spec (anchor : Nat) (ws : Weekday) (f : Date)
    (hf : validDate f) (ha : 1 ≤ anchor) :
    validDate (nextOccurrence (RepeatRule.monthly anchor) f ws) ∧
    dateLt f (nextOccurrence (RepeatRule.monthly anchor) f ws) ∧
    (((nextOccurrence (RepeatRule.monthly anchor) f ws).year = f.year ∧
        (nextOccurrence (RepeatRule.monthly anchor) f ws).month = f.month) ∨
      ((nextOccurrence (RepeatRule.monthly anchor) f ws).year = nextMonthYear f ∧
        (nextOccurrence (RepeatRule.monthly anchor) f ws).month = nextMonthMonth f)) ∧
    (nextOccurrence (RepeatRule.monthly anchor) f ws).day
      = min anchor (daysInMonth (nextOccurrence (RepeatRule.monthly anchor) f ws).year
          (nextOccurrence (RepeatRule.monthly anchor) f ws).month) ∧
    (daysInMonth (nextOccurrence (RepeatRule.monthly anchor) f ws).year
        (nextOccurrence (RepeatRule.monthly anchor) f ws).month < anchor →
      (nextOccurrence (RepeatRule.monthly anchor) f ws).day
        = daysInMonth (nextOccurrence (RepeatRule.monthly anchor) f ws).year
            (nextOccurrence (RepeatRule.monthly anchor) f ws).month) := by
  have hval := hf
  obtain ⟨hm1, hm2, hd1, hd2⟩ := hf
  have heq : nextOccurrence (RepeatRule.monthly anchor) f ws
      = if f.day < min anchor (daysInMonth f.year f.month) then
          (⟨f.year, f.month, min anchor (daysInMonth f.year f.month)⟩ : Date)
        else
          ⟨nextMonthYear f, nextMonthMonth f,
            min anchor (daysInMonth (nextMonthYear f) (nextMonthMonth f))⟩ := rfl
  have hpos := daysInMonth_pos f.year f.month
  rw [heq]
  by_cases hc : f.day < min anchor (daysInMonth f.year f.month)
  · rw [if_pos hc]
    refine ⟨⟨?_, ?_, ?_, ?_⟩, ?_, Or.inl ⟨rfl, rfl⟩, rfl, ?_⟩
    · dsimp only
      omega
    · dsimp only
      omega
    · dsimp only
      omega
    · dsimp only
      omega
    · unfold dateLt toDayNumber
      dsimp only
      omega
    · dsimp only
      omega
  · rw [if_neg hc]
    obtain ⟨hn1, hn2⟩ := nextMonthMonth_range f hm2
    have hpos2 := daysInMonth_pos (nextMonthYear f) (nextMonthMonth f)
    refine ⟨⟨?_, ?_, ?_, ?_⟩, ?_, Or.inr ⟨rfl, rfl⟩, rfl, ?_⟩
    · dsimp only
      omega
    · dsimp only
      omega
    · dsimp only
      omega
    · dsimp only
      omega
    · exact dateLt_nextMonth f _ hval
    · dsimp only
      omega

/-- Witness for C4: anchor day 31 moved from 2024-01-31 lands on
2024-02-29, the last day of the shorter month. -/
theorem nextOccurrence_monthly_spec_witness :
    validDate ⟨2024, 1, 31⟩ ∧
      validDate (nextOccurrence (RepeatRule.monthly 31) ⟨2024, 1, 31⟩ .sunday) ∧
      (nextOccurrence (RepeatRule.monthly 31) ⟨2024, 1, 31⟩ .sunday).day
        = daysInMonth (nextOccurrence (RepeatRule.monthly 31) ⟨2024, 1, 31⟩ .sunday).year
            (nextOccurrence (RepeatRule.monthly 31) ⟨2024, 1, 31⟩ .sunday).month :=
  ⟨by decide,
    (nextOccurrence_monthly_spec 31 .sunday ⟨2024, 1, 31⟩ (by decide) (by omega)).1,
    (nextOccurrence_monthly_spec 31 .sunday ⟨2024, 1, 31⟩ (by decide) (by omega)).2.2.2.2
      (by decide)⟩

/-- C5: `isDue` is monotonic in the reference date, and a task is due
exactly when it has a scheduled date at or before the reference date and
its status is open. -/
theorem isDue_monotone (t : Task) (D Dp : Date)
    (h1 : isDue t D = true) (h2 : dateLt D Dp) :
    isDue t Dp = true ∧
    ∀ (u : Task) (R : Date),
      isDue u R = true ↔
        u.status = Status.Open ∧ ∃ d, u.date = some d ∧ dateLe d R := by
  refine ⟨?_, fun u R => isDue_iff u R⟩
  rw [isDue_iff] at h1 ⊢
  obtain ⟨hs, d, hd, hle⟩ := h1
  refine ⟨hs, d, hd, ?_⟩
  unfold dateLe at *
  unfold dateLt at h2
  omega

/-- Witness for C5: a task scheduled on the 1st of a month and due on the
2nd is still due on the 3rd. -/
theorem isDue_monotone_witness :
    isDue ⟨Status.Open, some ⟨4, 1, 1⟩, none, []⟩ ⟨4, 1, 2⟩ = true ∧
    dateLt ⟨4, 1, 2⟩ ⟨4, 1, 3⟩ ∧
    isDue ⟨Status.Open, some ⟨4, 1, 1⟩, none, []⟩ ⟨4, 1, 3⟩ = true :=
  ⟨by decide, by decide,
    (isDue_monotone ⟨Status.Open, some ⟨4, 1, 1⟩, none, []⟩ ⟨4, 1, 2⟩ ⟨4, 1, 3⟩
      (by decide) (by decide)).1⟩

/-- C6: the `move-incompleted-today` command is rejected whenever the
current document is the daily note for the target day: when the moment
resolved for the file is the same day as today, the check returns false
and the command is disabled, so no document changes. -/
theorem moveIncompletedCheck_same_day_rejected (view : ViewState) (m today : Date)
    (h : toDayNumber m = toDayNumber today) :
    moveIncompletedCheck view (some m) today = false := by
  cases view with
  | otherView => rfl
  | markdownView line => simp [moveIncompletedCheck, h]

/-- Witness for C6: looking at today's own daily note disables the
command. -/
theorem moveIncompletedCheck_same_day_rejected_witness :
    toDayNumber ⟨4, 1, 2⟩ = toDayNumber ⟨4, 1, 2⟩ ∧
      moveIncompletedCheck (.markdownView []) (some ⟨4, 1, 2⟩) ⟨4, 1, 2⟩ = false :=
  ⟨rfl, moveIncompletedCheck_same_day_rejected (.markdownView []) ⟨4, 1, 2⟩ ⟨4, 1, 2⟩ rfl⟩

/-- C7: for every file-open event carrying a valid file, the handler
processes and cache-refreshes the previously focused file (when one
exists) and then the newly focused file, and records the new file as
last focused. -/
theorem fileOpenHandler_processes_both (st : PluginState) (f : TFile)
    (hb : f.basename ≠ []) :
    (fileOpenHandler st (some f)).1.lastFile = some f ∧
    (st.lastFile = none →
      (fileOpenHandler st (some f)).2 = [.processFile f, .fileOpenHook f]) ∧
    (∀ lf, st.lastFile = some lf →
      (fileOpenHandler st (some f)).2 =
        [.processFile lf, .fileOpenHook lf, .processFile f, .fileOpenHook f]) := by
  obtain ⟨lastF⟩ := st
  have heq : fileOpenHandler ⟨lastF⟩ (some f)
      = if f.basename = [] then (⟨lastF⟩, [])
        else
          (⟨some f⟩,
            (match lastF with
             | none => []
             | some lf => [.processFile lf, .fileOpenHook lf]) ++
              [.processFile f, .fileOpenHook f]) := rfl
  rw [heq, if_neg hb]
  cases lastF with
  | none =>
    refine ⟨rfl, fun _ => rfl, ?_⟩
    intro lf hl
    exact absurd hl (by simp)
  | some lf =>
    refine ⟨rfl, ?_, ?_⟩
    · intro hl
      exact absurd hl (by simp)
    · intro lf2 hl
      have : lf = lf2 := by simpa using hl
      rw [this]
      rfl

/-- Witness for C7: a file-open event with a previously focused file. -/
theorem fileOpenHandler_processes_both_witness :
    (⟨"b".toList⟩ : TFile).basename ≠ [] ∧
      (fileOpenHandler ⟨some ⟨"a".toList⟩⟩ (some ⟨"b".toList⟩)).1.lastFile
        = some ⟨"b".toList⟩ ∧
      (fileOpenHandler ⟨some ⟨"a".toList⟩⟩ (some ⟨"b".toList⟩)).2
        = [.processFile ⟨"a".toList⟩, .fileOpenHook ⟨"a".toList⟩,
           .processFile ⟨"b".toList⟩, .fileOpenHook ⟨"b".toList⟩] :=
  ⟨by decide,
    (fileOpenHandler_processes_both ⟨some ⟨"a".toList⟩⟩ ⟨"b".toList⟩ (by decide)).1,
    (fileOpenHandler_processes_both ⟨some ⟨"a".toList⟩⟩ ⟨"b".toList⟩ (by decide)).2.2
      ⟨"a".toList⟩ rfl⟩

/-- C8: in the call sequence emitted by the file-open handler, the cache
refresh for a document always comes after the `processFile` call for the
same document. -/
theorem processFile_before_fileOpenHook (st : PluginState) (file : Option TFile)
    (stNew : PluginState) (evts : List Event)
    (h : fileOpenHandler st file = (stNew, evts)) (i : Nat) (d : TFile)
    (hi : evts[i]? = some (.fileOpenHook d)) :
    ∃ j, j < i ∧ evts[j]? = some (.processFile d) := by
  obtain ⟨lastF⟩ := st
  cases file with
  | none =>
    injection h with h1 h2
    subst h2
    simp at hi
  | some f =>
    by_cases hb : f.basename = []
    · cases lastF with
      | none =>
        have heq : fileOpenHandler ⟨none⟩ (some f) = (⟨none⟩, []) := by
          have heq0 : fileOpenHandler ⟨none⟩ (some f)
              = if f.basename = [] then ((⟨none⟩ : PluginState), [])
                else (⟨some f⟩, [.processFile f, .fileOpenHook f]) := rfl
          rw [heq0, if_pos hb]
        rw [heq] at h
        injection h with h1 h2
        subst h2
        simp at hi
      | some lf =>
        have heq : fileOpenHandler ⟨some lf⟩ (some f) = (⟨some lf⟩, []) := by
          have heq0 : fileOpenHandler ⟨some lf⟩ (some f)
              = if f.basename = [] then ((⟨some lf⟩ : PluginState), [])
                else (⟨some f⟩, [.processFile lf, .fileOpenHook lf,
                  .processFile f, .fileOpenHook f]) := rfl
          rw [heq0, if_pos hb]
        rw [heq] at h
        injection h with h1 h2
        subst h2
        simp at hi
    · cases lastF with
      | none =>
        have heq0 : fileOpenHandler ⟨none⟩ (some f)
            = if f.basename = [] then ((⟨none⟩ : PluginState), [])
              else (⟨some f⟩, [.processFile f, .fileOpenHook f]) := rfl
        have heq : fileOpenHandler ⟨none⟩ (some f)
            = (⟨some f⟩, [.processFile f, .fileOpenHook f]) := by
          rw [heq0, if_neg hb]
        rw [heq] at h
        injection h with h1 h2
        subst h2
        rcases i with - | - | i
        · simp at hi
        · refine ⟨0, by omega, ?_⟩
          have : f = d := by simpa using hi
          rw [this]
          rfl
        · simp at hi
      | some lf =>
        have heq0 : fileOpenHandler ⟨some lf⟩ (some f)
            = if f.basename = [] then ((⟨some lf⟩ : PluginState), [])
              else (⟨some f⟩, [.processFile lf, .fileOpenHook lf,
                .processFile f, .fileOpenHook f]) := rfl
        have heq : fileOpenHandler ⟨some lf⟩ (some f)
            = (⟨some f⟩, [.processFile lf, .fileOpenHook lf,
                .processFile f, .fileOpenHook f]) := by
          rw [heq0, if_neg hb]
        rw [heq] at h
        injection h with h1 h2
        subst h2
        rcases i with - | - | - | - | i
        · simp at hi
        · refine ⟨0, by omega, ?_⟩
          have : lf = d := by simpa using hi
          rw [this]
          rfl
        · simp at hi
        · refine ⟨2, by omega, ?_⟩
          have : f = d := by simpa using hi
          rw [this]
          rfl
        · simp at hi

/-- Witness for C8: the cache refresh of the previous file follows its
processing call. -/
theorem processFile_before_fileOpenHook_witness :
    fileOpenHandler ⟨some ⟨"a".toList⟩⟩ (some ⟨"b".toList⟩)
      = (⟨some ⟨"b".toList⟩⟩,
         [.processFile ⟨"a".toList⟩, .fileOpenHook ⟨"a".toList⟩,
          .processFile ⟨"b".toList⟩, .fileOpenHook ⟨"b".toList⟩]) ∧
    ([Event.processFile ⟨"a".toList⟩, .fileOpenHook ⟨"a".toList⟩,
      .processFile ⟨"b".toList⟩, .fileOpenHook ⟨"b".toList⟩][(1 : Nat)]?
        = some (.fileOpenHook ⟨"a".toList⟩)) ∧
    (∃ j, j < 1 ∧
      [Event.processFile ⟨"a".toList⟩, .fileOpenHook ⟨"a".toList⟩,
       .processFile ⟨"b".toList⟩, .fileOpenHook ⟨"b".toList⟩][j]?
        = some (.processFile ⟨"a".toList⟩)) :=
  ⟨by decide, by decide,
    processFile_before_fileOpenHook ⟨some ⟨"a".toList⟩⟩ (some ⟨"b".toList⟩)
      ⟨some ⟨"b".toList⟩⟩
      [.processFile ⟨"a".toList⟩, .fileOpenHook ⟨"a".toList⟩,
       .processFile ⟨"b".toList⟩, .fileOpenHook ⟨"b".toList⟩]
      (by decide) 1 ⟨"a".toList⟩ (by decide)⟩

/-- C9: a file-open event with a missing file or empty basename leaves
the plugin state unchanged and makes no handler or cache calls. -/
theorem fileOpenHandler_invalid_untouched (st : PluginState) :
    fileOpenHandler st none = (st, []) ∧
    ∀ f, f.basename = [] → fileOpenHandler st (some f) = (st, []) := by
  refine ⟨rfl, ?_⟩
  intro f hb
  obtain ⟨lastF⟩ := st
  have heq0 : fileOpenHandler ⟨lastF⟩ (some f)
      = if f.basename = [] then ((⟨lastF⟩ : PluginState), [])
        else
          (⟨some f⟩,
            (match lastF with
             | none => []
             | some lf => [.processFile lf, .fileOpenHook lf]) ++
              [.processFile f, .fileOpenHook f]) := rfl
  rw [heq0, if_pos hb]

/-- Witness for C9: a file without basename is ignored. -/
theorem fileOpenHandler_invalid_untouched_witness :
    fileOpenHandler ⟨some ⟨"a".toList⟩⟩ none = (⟨some ⟨"a".toList⟩⟩, []) ∧
      fileOpenHandler ⟨some ⟨"a".toList⟩⟩ (some ⟨[]⟩) = (⟨some ⟨"a".toList⟩⟩, []) :=
  ⟨(fileOpenHandler_invalid_untouched ⟨some ⟨"a".toList⟩⟩).1,
    (fileOpenHandler_invalid_untouched ⟨some ⟨"a".toList⟩⟩).2 ⟨[]⟩ rfl⟩

/-- C10: task commands are enabled exactly on a task line inside a
Markdown editor: no active leaf or a non-Markdown view checks false,
and a Markdown view checks `isLineTask` of the cursor line. -/
theorem taskChecker_spec :
    taskChecker none = false ∧
    taskChecker (some .otherView) = false ∧
    ∀ line, taskChecker (some (.markdownView line)) = isLineTask line :=
  ⟨rfl, rfl, fun _ => rfl⟩

end Slated
